import Mathlib

/-!
Shallow embedding of `src/receiver.cpp` (the corx array-detector receiver).

Modelling conventions:
* Floating-point values (`float`, `double`, `DeciAngle`) are modelled as exact
  rationals `ℚ`.  Transcendental quantities that the C++ code obtains from the
  signal buffers (complex argument `arg(dc)/(2*pi)`, magnitude `abs(dc)`,
  `sqrt` of correlation powers, the phase `arg(corrected_corr_fft[0])/(2*pi)`
  of each correlation block) are inputs of the model, supplied by a per-block
  oracle structure `BlockOracle`; the control flow that consumes them is
  translated literally from the source.
* Machine integers are `ℤ` with explicit reduction `% 2^w` where the C++ code
  performs unsigned arithmetic (`unsigned` is 32 bits, `size_t` is 64 bits,
  `uint16_t` is 16 bits).  Conversion of a floating value to an integer type
  truncates towards zero (`cTrunc`); `round` rounds half away from zero
  (`cround`), as the C `round` function does.  Conversion of a negative
  floating value to an unsigned type is undefined behaviour in C++; it is
  modelled as truncation followed by a two's-complement wrap, which is what
  the common x86-64 code generation produces.
* The external block source, carrier detector (fastcard) and correlation
  detector (fastdet) are out of scope of the repository; their outputs are
  oracle inputs.  `CorrDetector.interpolate_parabolic` is modelled from the
  spec because its code is not part of this repository.
* Writer calls (`write_file_header`, `write_cycle_start`, `write_cycle_block`,
  `write_cycle_stop`), the bias-tee toggle and the source cancellation are
  recorded as an `Event` trace; `CorxFileWriter` is a separate state machine
  consuming that trace, mirroring the C++ class whose methods touch no
  detector state.
-/

/-- C `round`: round half away from zero, as `round(3)`/`roundf(3)` do. -/
def cround (q : ℚ) : ℤ := if 0 ≤ q then ⌊q + 1/2⌋ else ⌈q - 1/2⌉

/-- C conversion of a floating value to an integer type: truncation toward zero. -/
def cTrunc (q : ℚ) : ℤ := if 0 ≤ q then ⌊q⌋ else ⌈q⌉

/-- C `abs`/`fabs` on a floating value. -/
def cAbs (q : ℚ) : ℚ := if q < 0 then -q else q

/-- Reduction into a 16-bit unsigned integer (conversion to `uint16_t`). -/
def toU16 (n : ℤ) : ℤ := n % (2 ^ 16)

/-- Reduction into a 32-bit unsigned integer (conversion to `unsigned`). -/
def toU32 (n : ℤ) : ℤ := n % (2 ^ 32)

/-- Reduction into a 64-bit unsigned integer (conversion to `size_t`). -/
def toU64 (n : ℤ) : ℤ := n % (2 ^ 64)

/-- Conversion of a signed 8-bit quantity: two's-complement wrap into
`[-128, 127]` (conversion of an integer value to `int8_t`). -/
def toI8 (n : ℤ) : ℤ := (n + 128) % 256 - 128

/-- Conversion of a floating value to `size_t`.  For a negative value this is
undefined behaviour in C++; modelled as a two's-complement wrap of the
truncation, matching common x86-64 behaviour. -/
def size_t_of_float (q : ℚ) : ℤ := toU64 (cTrunc q)

/-- Source line 64: `DeciAngle normalize_deciangle(DeciAngle angle)` returns
`angle - int(round(angle))`. -/
def normalize_deciangle (angle : ℚ) : ℚ := angle - cround angle

/-- Modelled from the spec: `CorrDetector::interpolate_parabolic` of the
external fastdet library (its code is not part of this repository).  Spec 4.3:
`δ = 0.5·(P[−1]−P[+1]) / (P[−1]−2·P[0]+P[+1])`, guarding against a zero
denominator by returning 0. -/
def interpolate_parabolic (pPrev p0 pNext : ℚ) : ℚ :=
  if pPrev - 2 * p0 + pNext = 0 then 0
  else (1/2) * (pPrev - pNext) / (pPrev - 2 * p0 + pNext)

/-- Split point of `fft_shift` (source line 111):
`size_t pos_len = (len+1)/2 + carrier_offset;` in `size_t` arithmetic.
`len` and `carrier_offset` are the already-converted `size_t` values. -/
def fft_shift_pos_len (len carrier_offset : ℤ) : ℤ :=
  toU64 ((len + 1) / 2 + carrier_offset)

/-- Configuration: the fields of the external `fargs_t` consumed by
`ArrayDetector`, plus the constructor arguments fixed in `main`
(`corr_size = 1024`) and whether the input is the rtlsdr device (the
`strcmp(args_->input_file, "rtlsdr")` test in `set_bias_tee`). -/
structure Cfg where
  block_len : ℤ
  history_len : ℤ
  sdr_sample_rate : ℚ
  sdr_freq : ℚ
  skip : ℤ
  corr_size : ℤ
  input_rtlsdr : Bool

/-- Source line 720: `skip_beacon_padding_ = 6000`. -/
def skip_beacon_padding : ℤ := 6000

/-- Source line 691: `carrier_ref_ = -277800`. -/
def carrier_ref : ℚ := -277800

/-- Source lines 281-282: `num_cycles_ = ((args_->sdr_sample_rate -
2*skip_beacon_padding_) / corr_size_)`, truncated into the `int` field. -/
def num_cycles (cfg : Cfg) : ℤ :=
  cTrunc ((cfg.sdr_sample_rate - 2 * (skip_beacon_padding : ℚ)) / (cfg.corr_size : ℚ))

/-- Source lines 54-55: `OUTPUT_WINDOW_START 0`, `OUTPUT_WINDOW_LEN -1`. -/
def output_window_start : ℤ := 0

/-- Source line 55. -/
def output_window_len : ℤ := -1

/-- Source line 284: `slice_start_ = max(0, OUTPUT_WINDOW_START)`. -/
def slice_start : ℤ := max 0 output_window_start

/-- Source lines 285-286: `slice_len_ = (OUTPUT_WINDOW_LEN <= 0) ? corr_size_
: min(corr_size_, (size_t)OUTPUT_WINDOW_LEN)`. -/
def slice_len (cfg : Cfg) : ℤ :=
  if output_window_len ≤ 0 then cfg.corr_size
  else min cfg.corr_size (toU64 output_window_len)

/-- Source lines 150-160: `CorxBeaconHeader`, the per-beacon record written by
`write_cycle_start`.  The `uint32_t` amplitude fields hold converted floating
values. -/
structure CorxBeaconHeader where
  soa : ℚ
  timestamp_sec : ℤ
  timestamp_msec : ℤ
  beacon_amplitude : ℤ
  beacon_noise : ℤ
  clock_error : ℚ
  carrier_pos : ℚ
  carrier_amplitude : ℤ
  preamp_on : Bool
deriving DecidableEq

/-- One observable action of the pipeline: a call into `CorxFileWriter`
(`fileHeader`, `cycleStart`, `cycleBlock`, `cycleStop`), a bias-tee toggle, or
the cancellation signal sent to the block source. -/
inductive Event where
  | fileHeader (slice_start_idx slice_size : ℤ)
  | cycleStart (header : CorxBeaconHeader)
  | cycleBlock (phase_error : ℤ) (len : ℤ)
  | cycleStop
  | biasTee (turnOn : Bool)
  | cancelSource
deriving DecidableEq

/-- Per-block oracle: the outputs of the external components and of the
transcendental floating-point computations for one call to `next()`.
`dc_arg` and `acq_dc_arg` stand for `arg(dc)/pi/2` of the respective
`calculate_dc` results (hence they lie in `[-1/2, 1/2]`); `cycle_arg i` stands
for `arg(corrected_corr_fft_[0])/2/pi` for the iteration of
`extract_corr_blocks` with `cycle_ = i`. -/
structure BlockOracle where
  source_ok : Bool
  ts_sec : ℤ
  ts_usec : ℤ
  dc_ampl : ℚ
  dc_arg : ℚ
  carrier_detected : Bool
  argmax : ℤ
  fft_power_prev : ℚ
  fft_power_max : ℚ
  fft_power_next : ℚ
  acq_dc_ampl : ℚ
  acq_dc_arg : ℚ
  corr_detected : Bool
  corr_peak_idx : ℤ
  corr_peak_offset : ℚ
  sqrt_peak_power : ℚ
  sqrt_noise_power : ℚ
  cycle_arg : ℤ → ℚ

/-- Mutable state of `ArrayDetector` (source lines 655-748).  `cancelled`
models the cancellation flag of the external reader that `cancel()` sets.
Fields that the C++ code leaves uninitialised (`prev_dc_angle_`, `dc_ampl_`,
`clock_error_`, `num_phase_errors_`) are given initial value 0. -/
structure ArrayDetector where
  block_idx : ℤ
  blocks_skip : ℤ
  last_block : ℤ
  preamp_off_block : ℤ
  sample_phase : ℚ
  carrier_pos : ℚ
  detected_carrier : Bool
  dc_angle : ℚ
  prev_dc_angle : ℚ
  dc_ampl : ℚ
  clock_error : ℚ
  avg_dc_angle : ℚ
  avg_dc_ampl : ℚ
  beacon : ℤ
  soa : ℚ
  prev_soa : ℚ
  cycle : ℤ
  num_phase_errors : ℤ
  cancelled : Bool

/-- Initial state established by the constructor and field initialisers. -/
def initState (cfg : Cfg) : ArrayDetector where
  block_idx := 0
  blocks_skip := toU32 cfg.skip
  last_block := 0
  preamp_off_block := 0
  sample_phase := 0
  carrier_pos := 0
  detected_carrier := false
  dc_angle := 0
  prev_dc_angle := 0
  dc_ampl := 0
  clock_error := 0
  avg_dc_angle := 0
  avg_dc_ampl := 0
  beacon := -1
  soa := 0
  prev_soa := 0
  cycle := -1
  num_phase_errors := 0
  cancelled := false

/-- Source lines 290-303: `set_bias_tee` toggles the tee only when the input
is the rtlsdr device; otherwise it returns `false` without an effect. -/
def set_bias_tee (cfg : Cfg) (turnOn : Bool) : List Event :=
  if cfg.input_rtlsdr then [Event.biasTee turnOn] else []

/-- Source lines 477-505: the tracking branch of `recover_carrier` (the body
of `if (detected_carrier_)`): shift by the current carrier estimate, read the
DC phase, and either declare tracking loss (`angle_diff * 360 >
MAX_TRACKING_ANGLE_DIFF`, a signed comparison) or nudge `carrier_pos_` by
`TRACKING_ANGLE_DIFF_FACTOR = 0.2` times the phase step. -/
def track_phase (s : ArrayDetector) (o : BlockOracle) : ArrayDetector :=
  if s.detected_carrier then
    let prev_dc_angle := s.dc_angle
    let dc_ampl := o.dc_ampl
    let dc_angle := normalize_deciangle o.dc_arg
    let angle_diff := normalize_deciangle (dc_angle - prev_dc_angle)
    if angle_diff * 360 > 50 then
      { s with detected_carrier := false, prev_dc_angle := prev_dc_angle,
               dc_ampl := dc_ampl, dc_angle := dc_angle }
    else
      { s with carrier_pos := s.carrier_pos + angle_diff * (2/10),
               prev_dc_angle := prev_dc_angle,
               dc_ampl := dc_ampl, dc_angle := dc_angle }
  else s

/-- Source lines 507-546: the acquisition branch of `recover_carrier` (the
body of `if (!detected_carrier_)`): run the external carrier detector; on a
detection take `argmax` plus the parabolic offset, subtract `block_len` when
the result exceeds `block_len / 2` (C integer division), shift and read the DC
value. -/
def acquire_phase (cfg : Cfg) (s : ArrayDetector) (o : BlockOracle) : ArrayDetector :=
  if !s.detected_carrier then
    if o.carrier_detected then
      let carrier_offset :=
        interpolate_parabolic o.fft_power_prev o.fft_power_max o.fft_power_next
      let pos0 : ℚ := (o.argmax : ℚ) + carrier_offset
      let pos : ℚ :=
        if pos0 > ((cfg.block_len / 2 : ℤ) : ℚ) then pos0 - (cfg.block_len : ℚ) else pos0
      { s with carrier_pos := pos, detected_carrier := true,
               dc_ampl := o.acq_dc_ampl, dc_angle := normalize_deciangle o.acq_dc_arg }
    else s
  else s

/-- Source lines 476-549: `ArrayDetector::recover_carrier`, the sequential
composition of the tracking branch and the acquisition branch (tracking loss
falls through to acquisition within the same call). -/
def recover_carrier (cfg : Cfg) (s : ArrayDetector) (o : BlockOracle) : ArrayDetector :=
  acquire_phase cfg (track_phase s o) o

/-- Source lines 390-399 of `next()`: carrier recovery followed by the
sample-phase continuity update and the running averages
(`AVG_ANGLE_WEIGHT = 0.1`, `AVG_DCAMPL_WEIGHT = 0.1`). -/
def post_carrier_state (cfg : Cfg) (o : BlockOracle) (s2 : ArrayDetector) : ArrayDetector :=
  let s3 := recover_carrier cfg s2 o
  { s3 with
    sample_phase := normalize_deciangle (s3.sample_phase
      - s3.carrier_pos * (1 - (cfg.history_len : ℚ) / (cfg.block_len : ℚ)))
    avg_dc_angle := s3.dc_angle * (1/10) + s3.avg_dc_angle * (1 - 1/10)
    avg_dc_ampl := s3.dc_ampl * (1/10) + s3.avg_dc_ampl * (1 - 1/10) }

/-- Source lines 650-653: `estimate_clock_error`. -/
def estimate_clock_error (cfg : Cfg) (s : ArrayDetector) : ℚ :=
  (s.carrier_pos * cfg.sdr_sample_rate / (cfg.block_len : ℚ) - carrier_ref) / cfg.sdr_freq

/-- Source line 39: `BEACON_INTERVAL_SEC 1`. -/
def beacon_interval_sec : ℚ := 1

/-- Source lines 566-572: the beacon-counter update of `find_beacon`:
if `beacon_ > 0` and `time_step > 1.5 * BEACON_INTERVAL_SEC` then
`beacon_ += (int)round(time_step)` else `beacon_++`. -/
def beaconAdvance (beacon : ℤ) (time_step : ℚ) : ℤ :=
  if 0 < beacon ∧ time_step > (3/2) * beacon_interval_sec then beacon + cround time_step
  else beacon + 1

/-- Source lines 551-581: `ArrayDetector::find_beacon`.  The correlation
detection itself is the oracle; on a detection the sample of arrival and the
beacon counter are updated.  `(B-H)*block_idx_ + corr.peak_idx` is `unsigned`
arithmetic. -/
def find_beacon (cfg : Cfg) (s : ArrayDetector) (o : BlockOracle) : ArrayDetector :=
  if o.corr_detected then
    let soa : ℚ :=
      ((toU32 ((cfg.block_len - cfg.history_len) * s.block_idx + o.corr_peak_idx) : ℤ) : ℚ)
        + o.corr_peak_offset
    let time_step := (soa - s.soa) / cfg.sdr_sample_rate
    { s with prev_soa := s.soa, soa := soa,
             beacon := beaconAdvance s.beacon time_step }
  else s

/-- Quantisation of a correlation-block phase error (source line 631):
`int8_t error_fp = error / 0.5 * 127;` (conversion truncates toward zero). -/
def error_to_fp (error : ℚ) : ℤ := toI8 (cTrunc (error / (1/2) * 127))

/-- Source lines 588-635: the body of the `for (; cycle_ < num_cycles_;
++cycle_)` loop of `extract_corr_blocks`, written with explicit fuel (the
caller passes `num_cycles_ - cycle_`, which bounds the iteration count since
`cycle_` increases by one per iteration).  Per iteration: compute the
fractional start of the correlation block, break out of the loop when the
block does not fit (`start_idx + corr_size_ > block_len` in `size_t`
arithmetic), otherwise count a large phase error (`abs(error) > 0.2`) and emit
`write_cycle_block` with the quantised error.  Returns the final `cycle_`,
`num_phase_errors_`, and the emitted events. -/
def extract_loop (cfg : Cfg) (o : BlockOracle) (soa clock_error : ℚ) (block_idx : ℤ) :
    ℕ → ℤ → ℤ → ℤ × ℤ × List Event
  | 0, cycle, npe => (cycle, npe, [])
  | fuel + 1, cycle, npe =>
    if cycle < num_cycles cfg then
      let start : ℚ :=
        soa + ((skip_beacon_padding : ℚ) + (cycle : ℚ) * (cfg.corr_size : ℚ))
                * (1 - clock_error)
            - ((toU32 (block_idx * (cfg.block_len - cfg.history_len)) : ℤ) : ℚ)
      let start_idx : ℤ := toU64 (cround start)
      if toU64 (start_idx + cfg.corr_size) > toU64 cfg.block_len then (cycle, npe, [])
      else
        let error := o.cycle_arg cycle
        let npe1 := if cAbs error > 2/10 then npe + 1 else npe
        let r := extract_loop cfg o soa clock_error block_idx fuel (cycle + 1) npe1
        (r.1, r.2.1, Event.cycleBlock (error_to_fp error) (slice_len cfg) :: r.2.2)
    else (cycle, npe, [])

/-- Source lines 583-645: `ArrayDetector::extract_corr_blocks`: run the cycle
loop, and when all `num_cycles_` cycles are done reset `cycle_` to -1 and emit
`write_cycle_stop`. -/
def extract_corr_blocks (cfg : Cfg) (o : BlockOracle) (s : ArrayDetector) :
    ArrayDetector × List Event :=
  let r := extract_loop cfg o s.soa s.clock_error s.block_idx
             (num_cycles cfg - s.cycle).toNat s.cycle s.num_phase_errors
  let s1 := { s with cycle := r.1, num_phase_errors := r.2.1 }
  if s1.cycle ≥ num_cycles cfg then
    ({ s1 with cycle := -1 }, r.2.2 ++ [Event.cycleStop])
  else (s1, r.2.2)

/-- Source line 49: `PREAMP_OFF_SKIP 0.2` (seconds). -/
def preamp_off_skip : ℚ := 2/10

/-- Source line 42: `MAX_CAPTURE_TIME 10.1` (seconds). -/
def max_capture_time : ℚ := 101/10

/-- Source line 46: `PREAMP_OFF_TIME 2.0` (seconds). -/
def preamp_off_time : ℚ := 2

/-- Source lines 316-333: the scheduler prologue of `next()`: on the
`preamp_off_block_` block close any open cycle, switch off the bias tee and
schedule the transient skip; on the `last_block_` block cancel the block
source. -/
def sched_phase (cfg : Cfg) (s : ArrayDetector) : ArrayDetector × List Event :=
  let p :=
    if 0 < s.preamp_off_block ∧ s.block_idx = s.preamp_off_block then
      let q : ArrayDetector × List Event :=
        if s.cycle ≥ 0 then ({ s with cycle := -1 }, [Event.cycleStop]) else (s, [])
      let skipVal : ℤ := toU32 (cTrunc (preamp_off_skip * cfg.sdr_sample_rate /
                           ((cfg.block_len : ℚ) - (cfg.history_len : ℚ))))
      ({ q.1 with blocks_skip := skipVal }, q.2 ++ set_bias_tee cfg false)
    else (s, [])
  if 0 < p.1.last_block ∧ p.1.block_idx = p.1.last_block then
    ({ p.1 with cancelled := true }, p.2 ++ [Event.cancelSource])
  else p

/-- Source lines 352-387: the noise-capture branch of `next()` (`block_idx_ >
preamp_off_block_` after the skip): keep shifting with the frozen carrier, and
if no cycle is open, open one with a zero-amplitude beacon header
(`preamp_on = false`, `soa_ = (B-H)*block_idx_`), then extract cycles. -/
def noise_capture (cfg : Cfg) (o : BlockOracle) (s : ArrayDetector) :
    ArrayDetector × List Event :=
  let p :=
    if s.cycle = -1 then
      let soa : ℚ := ((toU32 ((cfg.block_len - cfg.history_len) * s.block_idx) : ℤ) : ℚ)
      let hdr : CorxBeaconHeader :=
        { soa := soa
          timestamp_sec := o.ts_sec
          timestamp_msec := o.ts_usec / 1000
          beacon_amplitude := 0
          beacon_noise := 0
          clock_error := s.clock_error
          carrier_pos := s.carrier_pos
          carrier_amplitude := 0
          preamp_on := false }
      ({ s with soa := soa, cycle := 0, num_phase_errors := 0 }, [Event.cycleStart hdr])
    else (s, [])
  let r := extract_corr_blocks cfg o p.1
  (r.1, p.2 ++ r.2)

/-- Source lines 405-457: the beacon-acquisition step of `next()`: when no
cycle is open and the DC amplitude dips below `0.8` of its running average,
run `find_beacon`; on a detection update the clock error, open a cycle, on the
first beacon schedule `last_block_` and `preamp_off_block_`, and emit
`write_cycle_start` with the beacon header. -/
def beacon_phase (cfg : Cfg) (o : BlockOracle) (s : ArrayDetector) :
    ArrayDetector × List Event :=
  if s.cycle = -1 ∧ s.dc_ampl < s.avg_dc_ampl * (8/10) then
    let s1 := find_beacon cfg s o
    if o.corr_detected then
      let s2 := { s1 with clock_error := estimate_clock_error cfg s1,
                          cycle := 0, num_phase_errors := 0 }
      let s3 :=
        if s2.beacon = 0 then
          { s2 with
            last_block := toU32 (cTrunc ((max_capture_time + preamp_off_time)
                            * cfg.sdr_sample_rate
                            / ((cfg.block_len : ℚ) - (cfg.history_len : ℚ))
                            + (s2.block_idx : ℚ)))
            preamp_off_block := toU32 (cTrunc (max_capture_time * cfg.sdr_sample_rate
                            / ((cfg.block_len : ℚ) - (cfg.history_len : ℚ))
                            + (s2.block_idx : ℚ))) }
        else s2
      let hdr : CorxBeaconHeader :=
        { soa := s3.soa
          timestamp_sec := o.ts_sec
          timestamp_msec := o.ts_usec / 1000
          beacon_amplitude := toU32 (cTrunc o.sqrt_peak_power)
          beacon_noise := toU32 (cTrunc o.sqrt_noise_power)
          clock_error := s3.clock_error
          carrier_pos := s3.carrier_pos
          carrier_amplitude := toU32 (cTrunc s3.dc_ampl)
          preamp_on := true }
      (s3, [Event.cycleStart hdr])
    else (s1, [])
  else (s, [])

/-- Source lines 459-461 together with the beacon step: after carrier
recovery, run the beacon-acquisition step and, when a cycle is open
(`cycle_ >= 0`), the cycle extractor. -/
def detect_phase (cfg : Cfg) (o : BlockOracle) (s : ArrayDetector) :
    ArrayDetector × List Event :=
  let q := beacon_phase cfg o s
  if q.1.cycle ≥ 0 then
    let r := extract_corr_blocks cfg o q.1
    (r.1, q.2 ++ r.2)
  else q

/-- Source lines 315-464: `ArrayDetector::next`.  Returns the new state, the
events of this step, and the value `next()` returns (`false` terminates the
main loop). -/
def next (cfg : Cfg) (s : ArrayDetector) (o : BlockOracle) :
    ArrayDetector × List Event × Bool :=
  let p := sched_phase cfg s
  let s1 := p.1
  if ¬(o.source_ok = true ∧ s1.cancelled = false) then
    (s1, p.2 ++ (if s1.cycle ≥ 0 then [Event.cycleStop] else []), false)
  else
    let s2 := { s1 with block_idx := toU32 (s1.block_idx + 1) }
    if s2.blocks_skip ≠ 0 then
      ({ s2 with blocks_skip := s2.blocks_skip - 1 }, p.2, true)
    else if 0 < s2.preamp_off_block ∧ s2.preamp_off_block < s2.block_idx then
      let r := noise_capture cfg o s2
      (r.1, p.2 ++ r.2, true)
    else
      let s4 := post_carrier_state cfg o s2
      if s4.detected_carrier = false then (s4, p.2, true)
      else
        let q := detect_phase cfg o s4
        (q.1, p.2 ++ q.2, true)

/-- Source lines 305-313: `ArrayDetector::start`: reset the lock flag, start
the source, switch on the bias tee and write the file header (the slice window
fields are converted to `uint16_t`). -/
def start_events (cfg : Cfg) : List Event :=
  set_bias_tee cfg true ++
    [Event.fileHeader (toU16 slice_start) (toU16 (slice_len cfg))]

/-- Source lines 845-848 of `main`: drive `next()` until it returns false.
The oracle list supplies one entry per attempted block read; the run stops
early when `next()` returns false.  Returns the final state, the concatenated
event trace, and whether the pipeline exited (`next()` returned false within
the supplied oracles). -/
def run (cfg : Cfg) : ArrayDetector → List BlockOracle → ArrayDetector × List Event × Bool
  | s, [] => (s, [], false)
  | s, o :: os =>
    let r := next cfg s o
    if r.2.2 then
      let rest := run cfg r.1 os
      (rest.1, r.2.1 ++ rest.2.1, rest.2.2)
    else (r.1, r.2.1, true)

/-- Full event trace of a pipeline execution: `start()` followed by the main
loop. -/
def fullTrace (cfg : Cfg) (os : List BlockOracle) : List Event :=
  start_events cfg ++ (run cfg (initState cfg) os).2.1

/-- Source lines 168-245: state of `CorxFileWriter`.  `is_void` models
`out_.file() == nullptr` (no sink configured); `slice_size` is the
`slice_size_` member recorded by `write_file_header`. -/
structure CorxFileWriter where
  is_void : Bool
  slice_size : ℤ
deriving DecidableEq

/-- Predicate: the event is a call into `CorxFileWriter` (as opposed to the
bias-tee toggle or the source cancellation). -/
def isWriterCall : Event → Bool
  | Event.fileHeader _ _ => true
  | Event.cycleStart _ => true
  | Event.cycleBlock _ _ => true
  | Event.cycleStop => true
  | Event.biasTee _ => false
  | Event.cancelSource => false

/-- One writer call (source lines 173-224): every method returns immediately
when the writer is void, writing nothing; otherwise the record is written and
`write_file_header` also stores `slice_size_`.  The second component is the
list of records actually written by the call. -/
def writer_step (w : CorxFileWriter) (e : Event) : CorxFileWriter × List Event :=
  match e with
  | Event.fileHeader a b =>
    if w.is_void then (w, []) else ({ w with slice_size := b }, [Event.fileHeader a b])
  | Event.cycleStart h =>
    if w.is_void then (w, []) else (w, [Event.cycleStart h])
  | Event.cycleBlock fp len =>
    if w.is_void then (w, []) else (w, [Event.cycleBlock fp len])
  | Event.cycleStop =>
    if w.is_void then (w, []) else (w, [Event.cycleStop])
  | _ => (w, [])

/-- Processing of an event trace by the writer. -/
def writer_run (w : CorxFileWriter) : List Event → CorxFileWriter × List Event
  | [] => (w, [])
  | e :: t =>
    let r := writer_step w e
    let rest := writer_run r.1 t
    (rest.1, r.2 ++ rest.2)

/-- A full pipeline execution together with its writer: the detector state,
the final writer state, the records actually written, and the exit flag. -/
def runFull (cfg : Cfg) (w : CorxFileWriter) (os : List BlockOracle) :
    ArrayDetector × CorxFileWriter × List Event × Bool :=
  let r := run cfg (initState cfg) os
  let wr := writer_run w (start_events cfg ++ r.2.1)
  (r.1, wr.1, wr.2, r.2.2)

/-- Little-endian bytes of a `uint16_t` value. -/
def u16le_bytes (n : ℤ) : List ℤ := [n % 256, n / 256 % 256]

/-- The four magic bytes written by `fprintf(out_.file(), "CORX")`
(source line 179). -/
def corx_magic : List ℤ := "CORX".data.map fun c => (c.toNat : ℤ)

/-- Source line 244: `const static uint8_t version = 0x01`. -/
def corx_version : ℤ := 1

/-- Source lines 173-191: the bytes emitted by `write_file_header` for a
non-void sink: the magic, the version byte, then the packed little-endian
`CorxFileHeader { uint16_t slice_start_idx; uint16_t slice_size; }`
(source lines 144-147, `__attribute__((packed))`, little-endian per the
comment block at lines 163-166). -/
def write_file_header_bytes (slice_start_idx slice_size : ℤ) : List ℤ :=
  corx_magic ++ [corx_version] ++ u16le_bytes slice_start_idx ++ u16le_bytes slice_size

/-- Carrier offset argument of the `fft_shift` call in `extract_corr_blocks`
(source line 614): the float value `-carrier_pos_ * corr_size_ /
args_->block_len`, converted to the `size_t` parameter. -/
def extract_carrier_offset (cfg : Cfg) (carrier_pos : ℚ) : ℤ :=
  size_t_of_float (-carrier_pos * (cfg.corr_size : ℚ) / (cfg.block_len : ℚ))

/-- Number of `write_cycle_start` calls in a trace. -/
def countStarts : List Event → ℕ
  | [] => 0
  | Event.cycleStart _ :: t => countStarts t + 1
  | _ :: t => countStarts t

/-- Number of `write_cycle_stop` calls in a trace. -/
def countStops : List Event → ℕ
  | [] => 0
  | Event.cycleStop :: t => countStops t + 1
  | _ :: t => countStops t

/-- Pending-cycle indicator: 1 when the cycle counter denotes an open cycle
(`cycle_ ≥ 0`), 0 otherwise. -/
def bal (c : ℤ) : ℕ := if 0 ≤ c then 1 else 0

/-- Concrete configuration used by witnesses and counterexamples: a typical
rtlsdr setup (B = 16384, H = 2048, 2.4 MS/s, corr_size = 1024). -/
def cfgA : Cfg :=
  { block_len := 16384, history_len := 2048, sdr_sample_rate := 2400000,
    sdr_freq := 1575420000, skip := 0, corr_size := 1024, input_rtlsdr := true }

/-- Concrete configuration with a 1 kS/s sample rate (for beacon-time
arithmetic on small numbers). -/
def cfgB : Cfg := { cfgA with sdr_sample_rate := 1000 }

/-- Concrete configuration with an odd block length. -/
def cfgOdd : Cfg :=
  { cfgA with block_len := 7, history_len := 1, sdr_sample_rate := 1000, corr_size := 4 }

/-- Neutral oracle with all external detections negative. -/
def oracle0 : BlockOracle :=
  { source_ok := true, ts_sec := 0, ts_usec := 0, dc_ampl := 0, dc_arg := 0,
    carrier_detected := false, argmax := 0, fft_power_prev := 0,
    fft_power_max := 0, fft_power_next := 0, acq_dc_ampl := 0, acq_dc_arg := 0,
    corr_detected := false, corr_peak_idx := 0, corr_peak_offset := 0,
    sqrt_peak_power := 0, sqrt_noise_power := 0, cycle_arg := fun _ => 0 }

theorem cround_le (q : ℚ) : (cround q : ℚ) ≤ q + 1/2 := by
  rw [cround]
  split
  · exact Int.floor_le (q + 1/2)
  · have h := Int.ceil_lt_add_one (q - 1/2)
    push_cast at h ⊢
    linarith

theorem le_cround (q : ℚ) : q - 1/2 ≤ (cround q : ℚ) := by
  rw [cround]
  split
  · have h := Int.lt_floor_add_one (q + 1/2)
    push_cast at h ⊢
    linarith
  · exact Int.le_ceil (q - 1/2)

theorem normalize_deciangle_mem (a : ℚ) :
    -(1/2) ≤ normalize_deciangle a ∧ normalize_deciangle a ≤ 1/2 := by
  have h1 := cround_le a
  have h2 := le_cround a
  rw [normalize_deciangle]
  constructor <;> linarith

theorem cTrunc_le_of_nonneg (q : ℚ) (h : 0 ≤ q) : (cTrunc q : ℚ) ≤ q := by
  rw [cTrunc, if_pos h]
  exact Int.floor_le q

theorem cTrunc_nonneg (q : ℚ) (h : 0 ≤ q) : 0 ≤ cTrunc q := by
  rw [cTrunc, if_pos h]
  exact Int.floor_nonneg.mpr h

theorem le_cTrunc_of_neg (q : ℚ) (h : ¬ 0 ≤ q) : q ≤ (cTrunc q : ℚ) := by
  rw [cTrunc, if_neg h]
  exact Int.le_ceil q

theorem cTrunc_nonpos_of_neg (q : ℚ) (h : ¬ 0 ≤ q) : cTrunc q ≤ 0 := by
  rw [cTrunc, if_neg h]
  have hq : q ≤ ((0 : ℤ) : ℚ) := by push_cast; linarith [lt_of_not_le h]
  exact Int.ceil_le.mpr hq

theorem cTrunc_mem (q M : ℚ) (hM : 0 ≤ M) (h1 : -M ≤ q) (h2 : q ≤ M) :
    -M ≤ (cTrunc q : ℚ) ∧ (cTrunc q : ℚ) ≤ M := by
  by_cases h : 0 ≤ q
  · have ha := cTrunc_le_of_nonneg q h
    have hb := cTrunc_nonneg q h
    have hb2 : (0 : ℚ) ≤ (cTrunc q : ℚ) := by exact_mod_cast hb
    constructor <;> linarith
  · have ha := le_cTrunc_of_neg q h
    have hb := cTrunc_nonpos_of_neg q h
    have hb2 : (cTrunc q : ℚ) ≤ 0 := by exact_mod_cast hb
    constructor <;> linarith

/-- Claim C3 (amended): `normalize_deciangle` subtracts the nearest integer
(ties away from zero) and its result lies in the closed interval
`[-1/2, +1/2]`; the right endpoint is attained (at negative half-integers),
so the half-open interval `[-1/2, +1/2)` of the original claim is off by the
right endpoint. -/
theorem claim_C3 (angle : ℚ) :
    normalize_deciangle angle = angle - cround angle ∧
    -(1/2) ≤ normalize_deciangle angle ∧ normalize_deciangle angle ≤ 1/2 :=
  ⟨rfl, normalize_deciangle_mem angle⟩

/-- Claim C3 counterexample: at input `-1/2` the function returns `+1/2`,
which is not in the half-open interval `[-1/2, +1/2)`. -/
theorem claim_C3_counterexample :
    normalize_deciangle (-(1/2)) = 1/2 ∧ ¬ normalize_deciangle (-(1/2)) < 1/2 := by
  norm_num [normalize_deciangle, cround, Int.ceil_neg]

/-- Claim C3 witness: the amended theorem applied at a concrete input. -/
theorem claim_C3_witness :
    normalize_deciangle (7/3) = 7/3 - cround (7/3) ∧
    -(1/2) ≤ normalize_deciangle (7/3) ∧ normalize_deciangle (7/3) ≤ 1/2 :=
  claim_C3 (7/3)

/-- Claim C5 (amended): on every positive beacon detection the counter is
advanced by `round(time_step)` when `beacon_count > 0` and the time step
exceeds `1.5` beacon intervals, and by 1 otherwise; in particular, when one
pulse of a periodic train is omitted (time step of two beacon intervals), the
counter advances by 2 **provided the earlier surrounding detection was not
the very first one** (`beacon_count > 0`); at the detection right after the
first one the code advances by 1 even across an omitted pulse. -/
theorem claim_C5 (cfg : Cfg) (s : ArrayDetector) (o : BlockOracle)
    (hdet : o.corr_detected = true) :
    (find_beacon cfg s o).beacon =
      (if 0 < s.beacon ∧
          ((find_beacon cfg s o).soa - s.soa) / cfg.sdr_sample_rate
            > (3/2) * beacon_interval_sec
       then s.beacon + cround (((find_beacon cfg s o).soa - s.soa) / cfg.sdr_sample_rate)
       else s.beacon + 1) ∧
    (0 < s.beacon →
      ((find_beacon cfg s o).soa - s.soa) / cfg.sdr_sample_rate
          = 2 * beacon_interval_sec →
      (find_beacon cfg s o).beacon = s.beacon + 2) := by
  have h : (find_beacon cfg s o).beacon =
      beaconAdvance s.beacon
        (((find_beacon cfg s o).soa - s.soa) / cfg.sdr_sample_rate) := by
    simp [find_beacon, hdet]
  constructor
  · rw [h, beaconAdvance]
  · intro hb ht
    rw [h, ht, beaconAdvance]
    have h32 : (2 : ℚ) * beacon_interval_sec > 3/2 * beacon_interval_sec := by
      norm_num [beacon_interval_sec]
    rw [if_pos ⟨hb, h32⟩]
    have hr : cround (2 * beacon_interval_sec) = 2 := by
      norm_num [cround, beacon_interval_sec]
    rw [hr]

/-- Claim C5 counterexample: pulses at beacon interval multiples 1 and 3 with
pulse 2 omitted (the scenario of the claim and of spec scenario 3), starting
from the state right after the first accepted beacon (`beacon_count = 0`).
The time step is exactly two beacon intervals, yet the counter advances by 1,
not by 2, because the missed-pulse compensation requires `beacon_count > 0`. -/
theorem claim_C5_counterexample :
    ((find_beacon cfgB { initState cfgB with beacon := 0 } { oracle0 with
        corr_detected := true, corr_peak_idx := 2000 }).soa
      - ({ initState cfgB with beacon := 0 } : ArrayDetector).soa)
        / cfgB.sdr_sample_rate = 2 * beacon_interval_sec ∧
    (find_beacon cfgB { initState cfgB with beacon := 0 } { oracle0 with
        corr_detected := true, corr_peak_idx := 2000 }).beacon = 1 ∧
    ¬ (find_beacon cfgB { initState cfgB with beacon := 0 } { oracle0 with
        corr_detected := true, corr_peak_idx := 2000 }).beacon = 0 + 2 := by
  norm_num [find_beacon, beaconAdvance, initState, cfgB, cfgA, oracle0, toU32,
    beacon_interval_sec]

/-- Claim C5 witness: a detection with `beacon_count = 3` and a time step of
two beacon intervals advances the counter to 5. -/
theorem claim_C5_witness :
    ({ oracle0 with corr_detected := true, corr_peak_idx := 2000 } :
        BlockOracle).corr_detected = true ∧
    (0 : ℤ) < ({ initState cfgB with beacon := 3 } : ArrayDetector).beacon ∧
    (find_beacon cfgB { initState cfgB with beacon := 3 } { oracle0 with
        corr_detected := true, corr_peak_idx := 2000 }).beacon = 3 + 2 := by
  refine ⟨rfl, by norm_num [initState, cfgB, cfgA], ?_⟩
  have h := (claim_C5 cfgB { initState cfgB with beacon := 3 } { oracle0 with
    corr_detected := true, corr_peak_idx := 2000 } rfl).2
  have hb : (0 : ℤ) < ({ initState cfgB with beacon := 3 } : ArrayDetector).beacon := by
    norm_num [initState, cfgB, cfgA]
  have ht : ((find_beacon cfgB { initState cfgB with beacon := 3 } { oracle0 with
      corr_detected := true, corr_peak_idx := 2000 }).soa
      - ({ initState cfgB with beacon := 3 } : ArrayDetector).soa)
        / cfgB.sdr_sample_rate = 2 * beacon_interval_sec := by
    norm_num [find_beacon, initState, cfgB, cfgA, oracle0, toU32, beacon_interval_sec]
  exact h hb ht

/-- Claim C2 (amended): in the locked state, tracking loss is declared by the
**signed** comparison `angle_diff * 360 > 50`, not by the magnitude: a
positive phase step of more than 50 degrees loses the lock and falls through
to acquisition, while any other step (including a large negative one) keeps
the lock and updates `carrier_position` by `0.2 * angle_diff`. -/
theorem claim_C2 (cfg : Cfg) (s : ArrayDetector) (o : BlockOracle)
    (hdet : s.detected_carrier = true) :
    (normalize_deciangle (normalize_deciangle o.dc_arg - s.dc_angle) * 360 > 50 →
      (track_phase s o).detected_carrier = false ∧
      (track_phase s o).carrier_pos = s.carrier_pos) ∧
    (¬ normalize_deciangle (normalize_deciangle o.dc_arg - s.dc_angle) * 360 > 50 →
      (recover_carrier cfg s o).detected_carrier = true ∧
      (recover_carrier cfg s o).carrier_pos =
        s.carrier_pos +
          normalize_deciangle (normalize_deciangle o.dc_arg - s.dc_angle) * (2/10)) := by
  constructor
  · intro hgt
    simp [track_phase, hdet, hgt]
  · intro hle
    have h1 : (track_phase s o).detected_carrier = true := by
      simp [track_phase, hdet, hle]
    have h2 : (track_phase s o).carrier_pos =
        s.carrier_pos +
          normalize_deciangle (normalize_deciangle o.dc_arg - s.dc_angle) * (2/10) := by
      simp [track_phase, hdet, hle]
    have h3 : recover_carrier cfg s o = track_phase s o := by
      rw [recover_carrier, acquire_phase]
      simp [h1]
    rw [h3]
    exact ⟨h1, h2⟩

/-- Claim C2 counterexample: with a previous DC angle of 0 and a new raw DC
angle of `-3/10` turns, the angle difference is `-108` degrees, whose
magnitude exceeds 50 degrees; the claim then requires a declared tracking
loss, but the code keeps the carrier lock (the comparison is signed) and
updates the carrier position to `-3/50`. -/
theorem claim_C2_counterexample :
    cAbs (normalize_deciangle (normalize_deciangle
        ({ oracle0 with dc_arg := -(3/10) } : BlockOracle).dc_arg
        - ({ initState cfgA with detected_carrier := true } : ArrayDetector).dc_angle))
      * 360 > 50 ∧
    (recover_carrier cfgA { initState cfgA with detected_carrier := true }
        { oracle0 with dc_arg := -(3/10) }).detected_carrier = true ∧
    (recover_carrier cfgA { initState cfgA with detected_carrier := true }
        { oracle0 with dc_arg := -(3/10) }).carrier_pos = -(3/50) := by
  refine ⟨?_, ?_, ?_⟩
  · simp only [initState, oracle0]
    norm_num [normalize_deciangle, cround, cAbs, Int.ceil_neg]
  · simp only [recover_carrier, track_phase, acquire_phase, initState, oracle0]
    norm_num [normalize_deciangle, cround, Int.ceil_neg]
  · simp only [recover_carrier, track_phase, acquire_phase, initState, oracle0]
    norm_num [normalize_deciangle, cround, Int.ceil_neg]

/-- Claim C2 witness: a 10-degree step (raw DC angle `1/36` turns) keeps the
lock and moves the carrier position by `0.2` of the step. -/
theorem claim_C2_witness :
    ({ initState cfgA with detected_carrier := true } : ArrayDetector).detected_carrier
      = true ∧
    ¬ normalize_deciangle (normalize_deciangle
        ({ oracle0 with dc_arg := 1/36 } : BlockOracle).dc_arg
        - ({ initState cfgA with detected_carrier := true } : ArrayDetector).dc_angle)
      * 360 > 50 ∧
    (recover_carrier cfgA { initState cfgA with detected_carrier := true }
        { oracle0 with dc_arg := 1/36 }).detected_carrier = true ∧
    (recover_carrier cfgA { initState cfgA with detected_carrier := true }
        { oracle0 with dc_arg := 1/36 }).carrier_pos =
      ({ initState cfgA with detected_carrier := true } : ArrayDetector).carrier_pos +
        normalize_deciangle (normalize_deciangle
          ({ oracle0 with dc_arg := 1/36 } : BlockOracle).dc_arg
          - ({ initState cfgA with detected_carrier := true } : ArrayDetector).dc_angle)
          * (2/10) := by
  have hle : ¬ normalize_deciangle (normalize_deciangle
      ({ oracle0 with dc_arg := 1/36 } : BlockOracle).dc_arg
      - ({ initState cfgA with detected_carrier := true } : ArrayDetector).dc_angle)
      * 360 > 50 := by
    simp only [initState, oracle0]
    norm_num [normalize_deciangle, cround, Int.ceil_neg]
  have h := (claim_C2 cfgA { initState cfgA with detected_carrier := true }
    { oracle0 with dc_arg := 1/36 } rfl).2 hle
  exact ⟨rfl, hle, h.1, h.2⟩

theorem interpolate_parabolic_mem (a b c : ℚ) (h1 : a ≤ b) (h2 : c ≤ b) :
    -(1/2) ≤ interpolate_parabolic a b c ∧ interpolate_parabolic a b c ≤ 1/2 := by
  rw [interpolate_parabolic]
  split
  · norm_num
  · rename_i hne
    have hd : a - 2 * b + c < 0 := by
      rcases lt_or_eq_of_le (by linarith : a - 2 * b + c ≤ 0) with h | h
      · exact h
      · exact absurd h hne
    constructor
    · rw [le_div_iff_of_neg hd]
      linarith
    · rw [div_le_iff_of_neg hd]
      linarith

/-- Claim C6 (amended): on an acquisition the new carrier position is
`argmax + δ` with `δ` the parabolic offset, wrapped once by subtracting `B`
when it exceeds `B / 2` computed with **C integer division**; the result lies
in the interval `(B/2 - B, B/2]` with `B/2` the integer quotient.  For even
`B` this is exactly the claimed `(-B/2, +B/2]`; for odd `B` the interval is
shifted and the claimed bound fails (see the counterexample). -/
theorem claim_C6 (cfg : Cfg) (s : ArrayDetector) (o : BlockOracle)
    (hundet : s.detected_carrier = false) (hdet : o.carrier_detected = true)
    (hB : 0 < cfg.block_len)
    (hm0 : 0 ≤ o.argmax) (hm1 : o.argmax < cfg.block_len)
    (hp : o.fft_power_prev ≤ o.fft_power_max)
    (hn : o.fft_power_next ≤ o.fft_power_max) :
    ((recover_carrier cfg s o).carrier_pos =
        (o.argmax : ℚ) +
          interpolate_parabolic o.fft_power_prev o.fft_power_max o.fft_power_next ∨
      (recover_carrier cfg s o).carrier_pos =
        (o.argmax : ℚ) +
          interpolate_parabolic o.fft_power_prev o.fft_power_max o.fft_power_next
          - (cfg.block_len : ℚ)) ∧
    ((cfg.block_len / 2 : ℤ) : ℚ) - (cfg.block_len : ℚ)
        < (recover_carrier cfg s o).carrier_pos ∧
    (recover_carrier cfg s o).carrier_pos ≤ ((cfg.block_len / 2 : ℤ) : ℚ) := by
  have htr : track_phase s o = s := by
    rw [track_phase, hundet]
    simp
  obtain ⟨hd1, hd2⟩ := interpolate_parabolic_mem o.fft_power_prev o.fft_power_max
    o.fft_power_next hp hn
  have hq1 : 0 ≤ cfg.block_len / 2 := by omega
  have hq2 : cfg.block_len / 2 - cfg.block_len ≤ -1 := by omega
  have hq3 : ((cfg.block_len / 2 : ℤ) : ℚ) - (cfg.block_len : ℚ) ≤ -1 := by
    exact_mod_cast hq2
  have hq4 : (0 : ℚ) ≤ ((cfg.block_len / 2 : ℤ) : ℚ) := by exact_mod_cast hq1
  have hm0Q : (0 : ℚ) ≤ (o.argmax : ℚ) := by exact_mod_cast hm0
  have hm1Q : (o.argmax : ℚ) ≤ (cfg.block_len : ℚ) - 1 := by
    have : o.argmax ≤ cfg.block_len - 1 := by omega
    exact_mod_cast this
  rw [recover_carrier, htr, acquire_phase, hundet]
  simp only [hdet, Bool.not_false, if_true]
  split
  · rename_i hgt
    refine ⟨Or.inr rfl, ?_, ?_⟩
    · linarith
    · linarith
  · rename_i hngt
    push_neg at hngt
    refine ⟨Or.inl rfl, ?_, ?_⟩
    · linarith
    · linarith

/-- Claim C6 counterexample: with an odd block length `B = 7`, argmax 3 and a
power triple `(0, 5/4, 1)` the parabolic offset is `1/3`, so the raw position
`10/3` exceeds the integer quotient `7 / 2 = 3` and `B` is subtracted, giving
`-11/3`, which lies outside the claimed interval `(-B/2, +B/2] = (-7/2, 7/2]`. -/
theorem claim_C6_counterexample :
    (recover_carrier cfgOdd (initState cfgOdd) { oracle0 with
        carrier_detected := true, argmax := 3,
        fft_power_prev := 0, fft_power_max := 5/4, fft_power_next := 1 }).carrier_pos
      = -(11/3) ∧
    ¬ (-(cfgOdd.block_len : ℚ) / 2
        < (recover_carrier cfgOdd (initState cfgOdd) { oracle0 with
            carrier_detected := true, argmax := 3,
            fft_power_prev := 0, fft_power_max := 5/4, fft_power_next := 1 }).carrier_pos) := by
  have h : (recover_carrier cfgOdd (initState cfgOdd) { oracle0 with
      carrier_detected := true, argmax := 3,
      fft_power_prev := 0, fft_power_max := 5/4, fft_power_next := 1 }).carrier_pos
      = -(11/3) := by
    simp only [recover_carrier, track_phase, acquire_phase, initState, oracle0,
      interpolate_parabolic, cfgOdd, cfgA]
    norm_num
  refine ⟨h, ?_⟩
  rw [h]
  norm_num [cfgOdd, cfgA]

/-- Claim C6 witness: the amended theorem at an even block length `B = 16384`
with argmax 9000 and a flat power triple (offset 1/2): the raw position
`9000.5` exceeds `8192`, so `B` is subtracted and the result `-7383.5` lies in
`(-8192, 8192]`. -/
theorem claim_C6_witness :
    ((initState cfgA).detected_carrier = false ∧
      (0 : ℤ) ≤ 9000 ∧ (9000 : ℤ) < cfgA.block_len) ∧
    ((recover_carrier cfgA (initState cfgA) { oracle0 with
        carrier_detected := true, argmax := 9000,
        fft_power_prev := 1, fft_power_max := 1, fft_power_next := 0 }).carrier_pos =
          (9000 : ℚ) + interpolate_parabolic 1 1 0 ∨
      (recover_carrier cfgA (initState cfgA) { oracle0 with
        carrier_detected := true, argmax := 9000,
        fft_power_prev := 1, fft_power_max := 1, fft_power_next := 0 }).carrier_pos =
          (9000 : ℚ) + interpolate_parabolic 1 1 0 - (cfgA.block_len : ℚ)) ∧
    ((cfgA.block_len / 2 : ℤ) : ℚ) - (cfgA.block_len : ℚ)
        < (recover_carrier cfgA (initState cfgA) { oracle0 with
            carrier_detected := true, argmax := 9000,
            fft_power_prev := 1, fft_power_max := 1, fft_power_next := 0 }).carrier_pos ∧
    (recover_carrier cfgA (initState cfgA) { oracle0 with
        carrier_detected := true, argmax := 9000,
        fft_power_prev := 1, fft_power_max := 1, fft_power_next := 0 }).carrier_pos
      ≤ ((cfgA.block_len / 2 : ℤ) : ℚ) := by
  constructor
  · exact ⟨rfl, by norm_num, by norm_num [cfgA]⟩
  · exact claim_C6 cfgA (initState cfgA) { oracle0 with
      carrier_detected := true, argmax := 9000,
      fft_power_prev := 1, fft_power_max := 1, fft_power_next := 0 }
      rfl rfl (by norm_num [cfgA]) (by norm_num) (by norm_num [cfgA])
      (by norm_num) (by norm_num)

/-- Claim C10 (amended): the split point `pos_len = (len+1)/2 + carrier_offset`
of the cycle extractor call of `fft_shift` satisfies `0 ≤ pos_len ≤ len`
**provided the signed carrier position lies within `[-B/2, +B/2]`** (the range
that acquisition establishes); for a larger positive carrier position the
float argument `-carrier_pos * W / B` is a negative value below -1 whose
conversion to the unsigned `size_t` parameter wraps, and `pos_len` can exceed
`len` (see the counterexample), so the claimed bound does not hold for every
carrier position. -/
theorem claim_C10 (cfg : Cfg) (cp : ℚ)
    (hW : 0 < cfg.corr_size) (hWB : cfg.corr_size ≤ cfg.block_len)
    (hW64 : cfg.corr_size < 2 ^ 64)
    (h1 : -(cfg.block_len : ℚ) / 2 ≤ cp) (h2 : cp ≤ (cfg.block_len : ℚ) / 2) :
    0 ≤ fft_shift_pos_len cfg.corr_size (extract_carrier_offset cfg cp) ∧
    fft_shift_pos_len cfg.corr_size (extract_carrier_offset cfg cp) ≤ cfg.corr_size := by
  have hB : 0 < cfg.block_len := lt_of_lt_of_le hW hWB
  have hBQ : (0 : ℚ) < (cfg.block_len : ℚ) := by exact_mod_cast hB
  have hWQ : (0 : ℚ) < (cfg.corr_size : ℚ) := by exact_mod_cast hW
  set q : ℚ := -cp * (cfg.corr_size : ℚ) / (cfg.block_len : ℚ) with hqdef
  have hql : -((cfg.corr_size : ℚ) / 2) ≤ q := by
    rw [hqdef, le_div_iff hBQ]
    have : -cp * (cfg.corr_size : ℚ) ≥ (-(cfg.block_len : ℚ) / 2) * (cfg.corr_size : ℚ) := by
      have hcp : -cp ≥ -(cfg.block_len : ℚ) / 2 := by linarith
      nlinarith
    nlinarith
  have hqr : q ≤ (cfg.corr_size : ℚ) / 2 := by
    rw [hqdef, div_le_iff hBQ]
    have : -cp * (cfg.corr_size : ℚ) ≤ ((cfg.block_len : ℚ) / 2) * (cfg.corr_size : ℚ) := by
      have hcp : -cp ≤ (cfg.block_len : ℚ) / 2 := by linarith
      nlinarith
    nlinarith
  obtain ⟨ht1, ht2⟩ := cTrunc_mem q ((cfg.corr_size : ℚ) / 2) (by positivity)
    (by linarith) hqr
  have ht1Z : -cfg.corr_size ≤ 2 * cTrunc q := by
    have : -(cfg.corr_size : ℚ) ≤ 2 * (cTrunc q : ℚ) := by linarith
    exact_mod_cast this
  have ht2Z : 2 * cTrunc q ≤ cfg.corr_size := by
    have : 2 * (cTrunc q : ℚ) ≤ (cfg.corr_size : ℚ) := by linarith
    exact_mod_cast this
  rw [fft_shift_pos_len, extract_carrier_offset, size_t_of_float, toU64, toU64,
    ← hqdef]
  constructor
  · omega
  · omega

/-- Claim C10 counterexample: `B = 16384`, `W = 1024`, `carrier_pos = 9600`.
The float argument is `-600`; its conversion to `size_t` wraps to
`2^64 - 600`, and `pos_len = 512 + 2^64 - 600 (mod 2^64) = 2^64 - 88`, which
is far beyond `len = 1024`, so the element-wise multiplies do not stay within
the buffers. -/
theorem claim_C10_counterexample :
    extract_carrier_offset cfgA 9600 = 2 ^ 64 - 600 ∧
    fft_shift_pos_len cfgA.corr_size (extract_carrier_offset cfgA 9600)
      = 2 ^ 64 - 88 ∧
    ¬ fft_shift_pos_len cfgA.corr_size (extract_carrier_offset cfgA 9600)
        ≤ cfgA.corr_size := by
  have h0 : extract_carrier_offset cfgA 9600 = 2 ^ 64 - 600 := by
    rw [extract_carrier_offset, size_t_of_float]
    have h1 : (-(9600 : ℚ) * ((cfgA.corr_size : ℤ) : ℚ) / ((cfgA.block_len : ℤ) : ℚ))
        = -600 := by
      norm_num [cfgA]
    rw [h1]
    have h2 : cTrunc (-600) = -600 := by
      rw [cTrunc]
      norm_num [Int.ceil_neg]
    rw [h2]
    decide
  refine ⟨h0, ?_, ?_⟩
  · rw [h0, fft_shift_pos_len]
    decide
  · rw [h0, fft_shift_pos_len]
    decide

/-- Claim C10 witness: the amended theorem at `B = 16384`, `W = 1024`,
`carrier_pos = 8192 = B/2`: the split point is in range. -/
theorem claim_C10_witness :
    ((0 : ℤ) < cfgA.corr_size ∧ cfgA.corr_size ≤ cfgA.block_len ∧
      cfgA.corr_size < 2 ^ 64 ∧
      -(cfgA.block_len : ℚ) / 2 ≤ (8192 : ℚ) ∧ (8192 : ℚ) ≤ (cfgA.block_len : ℚ) / 2) ∧
    0 ≤ fft_shift_pos_len cfgA.corr_size (extract_carrier_offset cfgA 8192) ∧
    fft_shift_pos_len cfgA.corr_size (extract_carrier_offset cfgA 8192)
      ≤ cfgA.corr_size := by
  refine ⟨⟨?_, ?_, ?_, ?_, ?_⟩, ?_⟩
  · norm_num [cfgA]
  · norm_num [cfgA]
  · norm_num [cfgA]
  · norm_num [cfgA]
  · norm_num [cfgA]
  · exact claim_C10 cfgA 8192 (by norm_num [cfgA]) (by norm_num [cfgA])
      (by norm_num [cfgA]) (by norm_num [cfgA]) (by norm_num [cfgA])

theorem countStarts_append (a b : List Event) :
    countStarts (a ++ b) = countStarts a + countStarts b := by
  induction a with
  | nil => simp [countStarts]
  | cons e t ih => cases e <;> simp [countStarts, ih] <;> omega

theorem countStops_append (a b : List Event) :
    countStops (a ++ b) = countStops a + countStops b := by
  induction a with
  | nil => simp [countStops]
  | cons e t ih => cases e <;> simp [countStops, ih] <;> omega

theorem counts_of_blocks (l : List Event)
    (h : ∀ e ∈ l, ∃ fp len, e = Event.cycleBlock fp len) :
    countStarts l = 0 ∧ countStops l = 0 := by
  induction l with
  | nil => simp [countStarts, countStops]
  | cons e t ih =>
    obtain ⟨fp, len, rfl⟩ := h e (List.mem_cons_self e t)
    have ht := ih fun x hx => h x (List.mem_cons_of_mem _ hx)
    simp [countStarts, countStops, ht.1, ht.2]

theorem error_to_fp_mem (e : ℚ) (h1 : -(1/2) ≤ e) (h2 : e ≤ 1/2) :
    -127 ≤ error_to_fp e ∧ error_to_fp e ≤ 127 := by
  have hr : e / (1/2) * 127 = 254 * e := by ring
  have hq1 : -(127 : ℚ) ≤ e / (1/2) * 127 := by rw [hr]; linarith
  have hq2 : e / (1/2) * 127 ≤ 127 := by rw [hr]; linarith
  obtain ⟨ha, hb⟩ := cTrunc_mem (e / (1/2) * 127) 127 (by norm_num) hq1 hq2
  have haZ : -127 ≤ cTrunc (e / (1/2) * 127) := by exact_mod_cast ha
  have hbZ : cTrunc (e / (1/2) * 127) ≤ 127 := by exact_mod_cast hb
  rw [error_to_fp, toI8]
  omega

theorem extract_loop_spec (cfg : Cfg) (o : BlockOracle) (soa ce : ℚ) (bi : ℤ) :
    ∀ (fuel : ℕ) (cycle npe : ℤ),
      cycle ≤ (extract_loop cfg o soa ce bi fuel cycle npe).1 ∧
      ∀ e ∈ (extract_loop cfg o soa ce bi fuel cycle npe).2.2,
        ∃ i : ℤ, e = Event.cycleBlock (error_to_fp (o.cycle_arg i)) (slice_len cfg) := by
  intro fuel
  induction fuel with
  | zero =>
    intro cycle npe
    simp [extract_loop]
  | succ n ih =>
    intro cycle npe
    simp only [extract_loop]
    split
    · split
      · simp
      · rename_i hc hfit
        obtain ⟨ih1, ih2⟩ := ih (cycle + 1)
          (if cAbs (o.cycle_arg cycle) > 2/10 then npe + 1 else npe)
        refine ⟨by omega, ?_⟩
        intro e he
        simp only [List.mem_cons] at he
        rcases he with he | he
        · exact ⟨cycle, he⟩
        · exact ih2 e he
    · simp

theorem extract_corr_blocks_spec (cfg : Cfg) (o : BlockOracle) (s : ArrayDetector)
    (h : 0 ≤ s.cycle) :
    -1 ≤ (extract_corr_blocks cfg o s).1.cycle ∧
    countStarts (extract_corr_blocks cfg o s).2 = 0 ∧
    countStops (extract_corr_blocks cfg o s).2 + bal (extract_corr_blocks cfg o s).1.cycle = 1 ∧
    (∀ a b, Event.fileHeader a b ∈ (extract_corr_blocks cfg o s).2 → False) ∧
    (∀ fp len, Event.cycleBlock fp len ∈ (extract_corr_blocks cfg o s).2 →
      ∃ i : ℤ, fp = error_to_fp (o.cycle_arg i)) := by
  obtain ⟨h1, h2⟩ := extract_loop_spec cfg o s.soa s.clock_error s.block_idx
    (num_cycles cfg - s.cycle).toNat s.cycle s.num_phase_errors
  have hblocks : ∀ e ∈ (extract_loop cfg o s.soa s.clock_error s.block_idx
      (num_cycles cfg - s.cycle).toNat s.cycle s.num_phase_errors).2.2,
      ∃ fp len, e = Event.cycleBlock fp len := by
    intro e he
    obtain ⟨i, rfl⟩ := h2 e he
    exact ⟨_, _, rfl⟩
  obtain ⟨hst, hsp⟩ := counts_of_blocks _ hblocks
  rw [extract_corr_blocks]
  split
  · rename_i hdone
    refine ⟨by norm_num, ?_, ?_, ?_, ?_⟩
    · simp [countStarts_append, hst, countStarts]
    · simp [countStops_append, hsp, countStops, bal]
    · intro a b hmem
      simp only [List.mem_append, List.mem_cons] at hmem
      rcases hmem with hmem | hmem
      · obtain ⟨fp, len, he⟩ := hblocks _ hmem
        simp at he
      · simp at hmem
    · intro fp len hmem
      simp only [List.mem_append, List.mem_cons] at hmem
      rcases hmem with hmem | hmem
      · obtain ⟨i, he⟩ := h2 _ hmem
        exact ⟨i, by injection he⟩
      · simp at hmem
  · rename_i hnotdone
    have hge : 0 ≤ (extract_loop cfg o s.soa s.clock_error s.block_idx
        (num_cycles cfg - s.cycle).toNat s.cycle s.num_phase_errors).1 := le_trans h h1
    refine ⟨by simpa using le_trans (by norm_num) hge, hst, ?_, ?_, ?_⟩
    · simp only [bal]
      rw [if_pos (by simpa using hge)]
      omega
    · intro a b hmem
      obtain ⟨fp, len, he⟩ := hblocks _ hmem
      simp at he
    · intro fp len hmem
      obtain ⟨i, he⟩ := h2 _ hmem
      exact ⟨i, by injection he⟩

theorem sched_phase_spec (cfg : Cfg) (s : ArrayDetector) (h : -1 ≤ s.cycle) :
    -1 ≤ (sched_phase cfg s).1.cycle ∧
    countStarts (sched_phase cfg s).2 = 0 ∧
    countStops (sched_phase cfg s).2 + bal (sched_phase cfg s).1.cycle = bal s.cycle ∧
    (∀ a b, Event.fileHeader a b ∈ (sched_phase cfg s).2 → False) ∧
    (∀ fp len, Event.cycleBlock fp len ∈ (sched_phase cfg s).2 → False) := by
  rw [sched_phase]
  split
  · split
    · rename_i hpre hcyc
      split
      · rename_i hlast
        refine ⟨by norm_num, ?_, ?_, ?_, ?_⟩
        · simp [countStarts_append, countStarts, set_bias_tee]
          split <;> simp [countStarts]
        · simp only [countStops_append, countStops, bal, set_bias_tee]
          have hb : bal s.cycle = 1 := by simp [bal, hcyc]
          split <;> simp_all [countStops, bal, hcyc]
        · intro a b hmem
          simp only [List.mem_append, List.mem_cons, set_bias_tee] at hmem
          rcases hmem with (hmem | hmem) | hmem <;> first
            | simp_all
            | (split at hmem <;> simp_all)
        · intro fp len hmem
          simp only [List.mem_append, List.mem_cons, set_bias_tee] at hmem
          rcases hmem with (hmem | hmem) | hmem <;> first
            | simp_all
            | (split at hmem <;> simp_all)
      · rename_i hlast
        refine ⟨by norm_num, ?_, ?_, ?_, ?_⟩
        · simp [countStarts_append, countStarts, set_bias_tee]
          split <;> simp [countStarts]
        · have hb : bal s.cycle = 1 := by simp [bal, hcyc]
          simp only [countStops_append, countStops, bal, set_bias_tee]
          split <;> simp_all [countStops, bal, hcyc]
        · intro a b hmem
          simp only [List.mem_append, List.mem_cons, set_bias_tee] at hmem
          rcases hmem with hmem | hmem <;> first
            | simp_all
            | (split at hmem <;> simp_all)
        · intro fp len hmem
          simp only [List.mem_append, List.mem_cons, set_bias_tee] at hmem
          rcases hmem with hmem | hmem <;> first
            | simp_all
            | (split at hmem <;> simp_all)
    · rename_i hpre hcyc
      split
      · rename_i hlast
        refine ⟨by simpa using h, ?_, ?_, ?_, ?_⟩
        · simp [countStarts_append, countStarts, set_bias_tee]
          split <;> simp [countStarts]
        · have hb : bal s.cycle = 0 := by simp [bal, hcyc]
          simp only [countStops_append, countStops, bal, set_bias_tee]
          split <;> simp_all [countStops, bal, hcyc]
        · intro a b hmem
          simp only [List.mem_append, List.mem_cons, set_bias_tee] at hmem
          rcases hmem with (hmem | hmem) | hmem <;> first
            | simp_all
            | (split at hmem <;> simp_all)
        · intro fp len hmem
          simp only [List.mem_append, List.mem_cons, set_bias_tee] at hmem
          rcases hmem with (hmem | hmem) | hmem <;> first
            | simp_all
            | (split at hmem <;> simp_all)
      · rename_i hlast
        refine ⟨by simpa using h, ?_, ?_, ?_, ?_⟩
        · simp [countStarts_append, countStarts, set_bias_tee]
          split <;> simp [countStarts]
        · have hb : bal s.cycle = 0 := by simp [bal, hcyc]
          simp only [countStops_append, countStops, bal, set_bias_tee]
          split <;> simp_all [countStops, bal, hcyc]
        · intro a b hmem
          simp only [List.mem_append, List.mem_cons, set_bias_tee] at hmem
          rcases hmem with hmem | hmem <;> first
            | simp_all
            | (split at hmem <;> simp_all)
        · intro fp len hmem
          simp only [List.mem_append, List.mem_cons, set_bias_tee] at hmem
          rcases hmem with hmem | hmem <;> first
            | simp_all
            | (split at hmem <;> simp_all)
  · split
    · rename_i hpre hlast
      refine ⟨by simpa using h, by simp [countStarts_append, countStarts], ?_, ?_, ?_⟩
      · simp [countStops_append, countStops, bal]
      · intro a b hmem
        simp_all
      · intro fp len hmem
        simp_all
    · rename_i hpre hlast
      exact ⟨by simpa using h, by simp [countStarts], by simp [countStops],
        by intro a b hmem; simp_all, by intro fp len hmem; simp_all⟩

theorem find_beacon_cycle (cfg : Cfg) (s : ArrayDetector) (o : BlockOracle) :
    (find_beacon cfg s o).cycle = s.cycle := by
  rw [find_beacon]
  split <;> simp

theorem beacon_phase_spec (cfg : Cfg) (o : BlockOracle) (s : ArrayDetector)
    (h : -1 ≤ s.cycle) :
    -1 ≤ (beacon_phase cfg o s).1.cycle ∧
    countStarts (beacon_phase cfg o s).2 + bal s.cycle
      = countStops (beacon_phase cfg o s).2 + bal (beacon_phase cfg o s).1.cycle ∧
    (∀ a b, Event.fileHeader a b ∈ (beacon_phase cfg o s).2 → False) ∧
    (∀ fp len, Event.cycleBlock fp len ∈ (beacon_phase cfg o s).2 → False) := by
  simp only [beacon_phase]
  split
  · rename_i hguard
    have hcyc : s.cycle = -1 := hguard.1
    split
    · rename_i hdet
      have hb0 : bal s.cycle = 0 := by simp [bal, hcyc]
      split
      · refine ⟨by norm_num, ?_, ?_, ?_⟩
        · simp [countStarts, countStops, bal, hcyc]
        · intro a b hmem; simp_all
        · intro fp len hmem; simp_all
      · refine ⟨by norm_num, ?_, ?_, ?_⟩
        · simp [countStarts, countStops, bal, hcyc]
        · intro a b hmem; simp_all
        · intro fp len hmem; simp_all
    · refine ⟨?_, ?_, ?_, ?_⟩
      · rw [find_beacon_cycle]; exact h
      · simp [countStarts, countStops, bal, find_beacon_cycle]
      · intro a b hmem; simp_all
      · intro fp len hmem; simp_all
  · exact ⟨h, by simp [countStarts, countStops], by intro a b hmem; simp_all,
      by intro fp len hmem; simp_all⟩

theorem noise_capture_spec (cfg : Cfg) (o : BlockOracle) (s : ArrayDetector)
    (h : -1 ≤ s.cycle) :
    -1 ≤ (noise_capture cfg o s).1.cycle ∧
    countStarts (noise_capture cfg o s).2 + bal s.cycle
      = countStops (noise_capture cfg o s).2 + bal (noise_capture cfg o s).1.cycle ∧
    (∀ a b, Event.fileHeader a b ∈ (noise_capture cfg o s).2 → False) ∧
    (∀ fp len, Event.cycleBlock fp len ∈ (noise_capture cfg o s).2 →
      ∃ i : ℤ, fp = error_to_fp (o.cycle_arg i)) := by
  simp only [noise_capture]
  split
  · rename_i hcyc
    have hb0 : bal s.cycle = 0 := by simp [bal, hcyc]
    set s1 : ArrayDetector := { s with
      soa := ((toU32 ((cfg.block_len - cfg.history_len) * s.block_idx) : ℤ) : ℚ),
      cycle := 0, num_phase_errors := 0 } with hs1
    obtain ⟨e1, e2, e3, e4, e5⟩ := extract_corr_blocks_spec cfg o s1 (by simp [hs1])
    refine ⟨by simpa using e1, ?_, ?_, ?_⟩
    · simp [countStarts, countStops]
      omega
    · intro a b hmem
      simp only [List.mem_append, List.mem_cons] at hmem
      rcases hmem with (hmem | hmem) | hmem
      · simp_all
      · simp_all
      · exact e4 a b hmem
    · intro fp len hmem
      simp only [List.mem_append, List.mem_cons] at hmem
      rcases hmem with (hmem | hmem) | hmem
      · simp_all
      · simp_all
      · exact e5 fp len hmem
  · rename_i hcyc
    have hge : 0 ≤ s.cycle := by omega
    have hb1 : bal s.cycle = 1 := by simp [bal, hge]
    obtain ⟨e1, e2, e3, e4, e5⟩ := extract_corr_blocks_spec cfg o s hge
    refine ⟨by simpa using e1, ?_, ?_, ?_⟩
    · simp only [List.nil_append]
      omega
    · intro a b hmem
      simp only [List.nil_append] at hmem
      exact e4 a b hmem
    · intro fp len hmem
      simp only [List.nil_append] at hmem
      exact e5 fp len hmem

theorem track_phase_cycle (s : ArrayDetector) (o : BlockOracle) :
    (track_phase s o).cycle = s.cycle := by
  simp only [track_phase]
  split
  · split <;> simp
  · rfl

theorem acquire_phase_cycle (cfg : Cfg) (s : ArrayDetector) (o : BlockOracle) :
    (acquire_phase cfg s o).cycle = s.cycle := by
  simp only [acquire_phase]
  split
  · split <;> simp
  · rfl

theorem recover_carrier_cycle (cfg : Cfg) (s : ArrayDetector) (o : BlockOracle) :
    (recover_carrier cfg s o).cycle = s.cycle := by
  rw [recover_carrier, acquire_phase_cycle, track_phase_cycle]

theorem detect_phase_spec (cfg : Cfg) (o : BlockOracle) (s : ArrayDetector)
    (h : -1 ≤ s.cycle) :
    -1 ≤ (detect_phase cfg o s).1.cycle ∧
    countStarts (detect_phase cfg o s).2 + bal s.cycle
      = countStops (detect_phase cfg o s).2 + bal (detect_phase cfg o s).1.cycle ∧
    (∀ a b, Event.fileHeader a b ∈ (detect_phase cfg o s).2 → False) ∧
    (∀ fp len, Event.cycleBlock fp len ∈ (detect_phase cfg o s).2 →
      ∃ i : ℤ, fp = error_to_fp (o.cycle_arg i)) := by
  obtain ⟨b1, b2, b4, b5⟩ := beacon_phase_spec cfg o s h
  simp only [detect_phase]
  split
  · rename_i hq
    obtain ⟨e1, e2, e3, e4, e5⟩ := extract_corr_blocks_spec cfg o _ hq
    have hbq : bal (beacon_phase cfg o s).1.cycle = 1 := by simp [bal, hq]
    refine ⟨by simpa using e1, ?_, ?_, ?_⟩
    · dsimp only
      rw [countStarts_append, countStops_append]
      omega
    · intro a b hmem
      dsimp only at hmem
      rcases List.mem_append.1 hmem with hm | hm
      · exact b4 a b hm
      · exact e4 a b hm
    · intro fp len hmem
      dsimp only at hmem
      rcases List.mem_append.1 hmem with hm | hm
      · exact (b5 fp len hm).elim
      · exact e5 fp len hm
  · rename_i hq
    refine ⟨b1, b2, b4, ?_⟩
    intro fp len hmem
    exact (b5 fp len hmem).elim

theorem post_carrier_state_cycle (cfg : Cfg) (o : BlockOracle) (s : ArrayDetector) :
    (post_carrier_state cfg o s).cycle = s.cycle := by
  simp only [post_carrier_state]
  rw [recover_carrier_cycle]

theorem next_spec (cfg : Cfg) (s : ArrayDetector) (o : BlockOracle) (h : -1 ≤ s.cycle) :
    -1 ≤ (next cfg s o).1.cycle ∧
    ((next cfg s o).2.2 = true →
      countStarts (next cfg s o).2.1 + bal s.cycle
        = countStops (next cfg s o).2.1 + bal (next cfg s o).1.cycle) ∧
    ((next cfg s o).2.2 = false →
      countStarts (next cfg s o).2.1 + bal s.cycle = countStops (next cfg s o).2.1) ∧
    (∀ a b, Event.fileHeader a b ∈ (next cfg s o).2.1 → False) ∧
    (∀ fp len, Event.cycleBlock fp len ∈ (next cfg s o).2.1 →
      ∃ i : ℤ, fp = error_to_fp (o.cycle_arg i)) := by
  obtain ⟨a1, a2, a3, a4, a5⟩ := sched_phase_spec cfg s h
  simp only [next]
  split
  · -- source read failed: emit trailing stop if a cycle is open, exit
    refine ⟨by simpa using a1, by simp, ?_, ?_, ?_⟩
    · intro _
      rw [countStarts_append, countStops_append]
      split
      · rename_i hc
        have hb : bal (sched_phase cfg s).1.cycle = 1 := by simp [bal, hc]
        simp only [countStarts, countStops]
        omega
      · rename_i hc
        have hb : bal (sched_phase cfg s).1.cycle = 0 := by
          simp only [bal]
          rw [if_neg (by omega)]
        simp only [countStarts, countStops]
        omega
    · intro a b hmem
      simp only [List.mem_append] at hmem
      rcases hmem with hmem | hmem
      · exact a4 a b hmem
      · split at hmem <;> simp_all
    · intro fp len hmem
      simp only [List.mem_append] at hmem
      rcases hmem with hmem | hmem
      · exact (a5 fp len hmem).elim
      · split at hmem <;> simp_all
  · split
    · -- skip branch
      refine ⟨by simpa using a1, ?_, by simp, ?_, ?_⟩
      · intro _
        dsimp only
        omega
      · intro a b hmem
        exact a4 a b (by simpa using hmem)
      · intro fp len hmem
        exact (a5 fp len (by simpa using hmem)).elim
    · split
      · -- noise-capture branch
        rename_i hnosrc hskip hnoise
        have hcyc2 : -1 ≤ ({ (sched_phase cfg s).1 with
            block_idx := toU32 ((sched_phase cfg s).1.block_idx + 1) } :
              ArrayDetector).cycle := by simpa using a1
        obtain ⟨n1, n2, n4, n5⟩ := noise_capture_spec cfg o _ hcyc2
        refine ⟨by simpa using n1, ?_, by simp, ?_, ?_⟩
        · intro _
          rw [countStarts_append, countStops_append]
          dsimp only at n2 ⊢
          omega
        · intro a b hmem
          simp only [List.mem_append] at hmem
          rcases hmem with hmem | hmem
          · exact a4 a b hmem
          · exact n4 a b hmem
        · intro fp len hmem
          simp only [List.mem_append] at hmem
          rcases hmem with hmem | hmem
          · exact (a5 fp len hmem).elim
          · exact n5 fp len hmem
      · -- carrier recovery path
        rename_i hnosrc hskip hnonoise
        split
        · -- no carrier: nothing more happens
          refine ⟨?_, ?_, by simp, ?_, ?_⟩
          · simpa [post_carrier_state_cycle] using a1
          · intro _
            dsimp only
            rw [post_carrier_state_cycle]
            dsimp only
            omega
          · intro a b hmem
            exact a4 a b (by simpa using hmem)
          · intro fp len hmem
            exact (a5 fp len (by simpa using hmem)).elim
        · -- carrier present: beacon acquisition and cycle extraction
          rename_i hdet
          have hcyc4 : -1 ≤ (post_carrier_state cfg o { (sched_phase cfg s).1 with
              block_idx := toU32 ((sched_phase cfg s).1.block_idx + 1) }).cycle := by
            simpa [post_carrier_state_cycle] using a1
          obtain ⟨d1, d2, d4, d5⟩ := detect_phase_spec cfg o _ hcyc4
          refine ⟨by simpa using d1, ?_, by simp, ?_, ?_⟩
          · intro _
            dsimp only
            rw [countStarts_append, countStops_append]
            rw [post_carrier_state_cycle] at d2
            dsimp only at d2
            omega
          · intro a b hmem
            dsimp only at hmem
            rcases List.mem_append.1 hmem with hm | hm
            · exact a4 a b hm
            · exact d4 a b hm
          · intro fp len hmem
            dsimp only at hmem
            rcases List.mem_append.1 hmem with hm | hm
            · exact (a5 fp len hm).elim
            · exact d5 fp len hm

theorem run_spec (cfg : Cfg) : ∀ (os : List BlockOracle) (s : ArrayDetector),
    -1 ≤ s.cycle →
    -1 ≤ (run cfg s os).1.cycle ∧
    ((run cfg s os).2.2 = false →
      countStarts (run cfg s os).2.1 + bal s.cycle
        = countStops (run cfg s os).2.1 + bal (run cfg s os).1.cycle) ∧
    ((run cfg s os).2.2 = true →
      countStarts (run cfg s os).2.1 + bal s.cycle = countStops (run cfg s os).2.1) ∧
    (∀ a b, Event.fileHeader a b ∈ (run cfg s os).2.1 → False) ∧
    (∀ fp len, Event.cycleBlock fp len ∈ (run cfg s os).2.1 →
      ∃ o2 ∈ os, ∃ i : ℤ, fp = error_to_fp (o2.cycle_arg i)) := by
  intro os
  induction os with
  | nil =>
    intro s h
    refine ⟨h, ?_, ?_, ?_, ?_⟩
    · intro _
      simp [run, countStarts, countStops]
    · intro hex
      simp [run] at hex
    · intro a b hmem
      simp [run] at hmem
    · intro fp len hmem
      simp [run] at hmem
  | cons o os ih =>
    intro s h
    obtain ⟨n1, n2, n3, n4, n5⟩ := next_spec cfg s o h
    simp only [run]
    split
    · rename_i hcont
      obtain ⟨i1, i2, i3, i4, i5⟩ := ih (next cfg s o).1 n1
      have hn2 := n2 hcont
      refine ⟨i1, ?_, ?_, ?_, ?_⟩
      · intro hex
        dsimp only
        rw [countStarts_append, countStops_append]
        have := i2 hex
        omega
      · intro hex
        dsimp only
        rw [countStarts_append, countStops_append]
        have := i3 hex
        omega
      · intro a b hmem
        dsimp only at hmem
        rcases List.mem_append.1 hmem with hm | hm
        · exact n4 a b hm
        · exact i4 a b hm
      · intro fp len hmem
        dsimp only at hmem
        rcases List.mem_append.1 hmem with hm | hm
        · obtain ⟨i, hi⟩ := n5 fp len hm
          exact ⟨o, List.mem_cons_self o os, i, hi⟩
        · obtain ⟨o2, ho2, i, hi⟩ := i5 fp len hm
          exact ⟨o2, List.mem_cons_of_mem o ho2, i, hi⟩
    · rename_i hstop
      have hfalse : (next cfg s o).2.2 = false := by
        revert hstop
        cases (next cfg s o).2.2 <;> simp
      have hn3 := n3 hfalse
      refine ⟨n1, ?_, ?_, ?_, ?_⟩
      · intro hex
        dsimp only at hex
        simp at hex
      · intro _
        dsimp only
        omega
      · intro a b hmem
        exact n4 a b hmem
      · intro fp len hmem
        obtain ⟨i, hi⟩ := n5 fp len hmem
        exact ⟨o, List.mem_cons_self o os, i, hi⟩

/-- Claim C1: at every pipeline exit (`next()` returned false, which covers
block-source exhaustion, the scheduled stop via `last_block_` and external
cancellation) the number of `write_cycle_stop` calls equals the number of
`write_cycle_start` calls; while the pipeline is running, the two counts
differ exactly by the pending-cycle indicator, and `cycle_ = -1` holds
exactly when no `write_cycle_start` is pending a matching `write_cycle_stop`. -/
theorem claim_C1 (cfg : Cfg) (os : List BlockOracle) :
    ((run cfg (initState cfg) os).2.2 = true →
      countStarts (run cfg (initState cfg) os).2.1
        = countStops (run cfg (initState cfg) os).2.1) ∧
    ((run cfg (initState cfg) os).2.2 = false →
      countStarts (run cfg (initState cfg) os).2.1
        = countStops (run cfg (initState cfg) os).2.1
            + bal (run cfg (initState cfg) os).1.cycle ∧
      ((run cfg (initState cfg) os).1.cycle = -1 ↔
        countStarts (run cfg (initState cfg) os).2.1
          = countStops (run cfg (initState cfg) os).2.1)) := by
  have hinit : -1 ≤ (initState cfg).cycle := by simp [initState]
  obtain ⟨r1, r2, r3, r4, r5⟩ := run_spec cfg os (initState cfg) hinit
  have hb0 : bal (initState cfg).cycle = 0 := by simp [bal, initState]
  constructor
  · intro hex
    have := r3 hex
    omega
  · intro hex
    have hr2 := r2 hex
    refine ⟨by omega, ?_, ?_⟩
    · intro hc
      have : bal (run cfg (initState cfg) os).1.cycle = 0 := by simp [bal, hc]
      omega
    · intro hcnt
      have hbal : bal (run cfg (initState cfg) os).1.cycle = 0 := by omega
      by_contra hne
      have h0 : 0 ≤ (run cfg (initState cfg) os).1.cycle := by omega
      simp [bal, h0] at hbal

/-- Claim C1 witness: a one-block run whose source read fails exits
immediately with balanced (zero) counts. -/
theorem claim_C1_witness :
    (run cfgA (initState cfgA) [{ oracle0 with source_ok := false }]).2.2 = true ∧
    countStarts (run cfgA (initState cfgA) [{ oracle0 with source_ok := false }]).2.1
      = countStops (run cfgA (initState cfgA) [{ oracle0 with source_ok := false }]).2.1 := by
  have hex : (run cfgA (initState cfgA) [{ oracle0 with source_ok := false }]).2.2
      = true := by rfl
  exact ⟨hex, (claim_C1 cfgA [{ oracle0 with source_ok := false }]).1 hex⟩

/-- Claim C4: when every per-cycle phase `arg(corrected_corr_fft_[0])/(2*pi)`
lies in `[-1/2, 1/2]` (which the mathematical range of `arg` guarantees),
every `phase_error` byte passed to `write_cycle_block` lies in `[-127, 127]`
and is never the sentinel `-128`, so the assertion
`assert(phase_error != -128)` cannot fire and `-128` enters the stream only
through `write_cycle_stop`. -/
theorem claim_C4 (cfg : Cfg) (os : List BlockOracle)
    (h : ∀ o ∈ os, ∀ i : ℤ, -(1/2) ≤ o.cycle_arg i ∧ o.cycle_arg i ≤ 1/2) :
    ∀ fp len, Event.cycleBlock fp len ∈ fullTrace cfg os →
      -127 ≤ fp ∧ fp ≤ 127 ∧ fp ≠ -128 := by
  have hinit : -1 ≤ (initState cfg).cycle := by simp [initState]
  obtain ⟨r1, r2, r3, r4, r5⟩ := run_spec cfg os (initState cfg) hinit
  intro fp len hmem
  rw [fullTrace] at hmem
  rcases List.mem_append.1 hmem with hm | hm
  · rw [start_events, set_bias_tee] at hm
    split at hm <;> simp_all
  · obtain ⟨o2, ho2, i, hi⟩ := r5 fp len hm
    obtain ⟨hl, hr⟩ := h o2 ho2 i
    obtain ⟨hb1, hb2⟩ := error_to_fp_mem (o2.cycle_arg i) hl hr
    subst hi
    exact ⟨hb1, hb2, by omega⟩

/-- Claim C4 witness: the theorem applied to a one-block oracle stream whose
phase angles are all `1/4`. -/
theorem claim_C4_witness :
    (∀ o ∈ [{ oracle0 with cycle_arg := fun _ => 1/4 }], ∀ i : ℤ,
      -(1/2) ≤ BlockOracle.cycle_arg o i ∧ BlockOracle.cycle_arg o i ≤ 1/2) ∧
    (∀ fp len, Event.cycleBlock fp len ∈
        fullTrace cfgA [{ oracle0 with cycle_arg := fun _ => 1/4 }] →
      -127 ≤ fp ∧ fp ≤ 127 ∧ fp ≠ -128) := by
  have hh : ∀ o ∈ [{ oracle0 with cycle_arg := fun _ => (1/4 : ℚ) }], ∀ i : ℤ,
      -(1/2) ≤ BlockOracle.cycle_arg o i ∧ BlockOracle.cycle_arg o i ≤ 1/2 := by
    intro o ho i
    simp only [List.mem_singleton] at ho
    subst ho
    norm_num
  exact ⟨hh, claim_C4 cfgA [{ oracle0 with cycle_arg := fun _ => 1/4 }] hh⟩

/-- Claim C7: on the block with `block_idx_ == preamp_off_block_` (when
positive), any open cycle is closed (`write_cycle_stop`, `cycle_ = -1`), the
bias tee is switched off and `blocks_skip_` is set to
`0.2 * sample_rate / (B - H)` (truncated into the unsigned counter); and on
the block with `block_idx_ == last_block_` (when positive) the block source
is cancelled. -/
theorem claim_C7 (cfg : Cfg) (s : ArrayDetector) (hc : -1 ≤ s.cycle) :
    (0 < s.preamp_off_block → s.block_idx = s.preamp_off_block →
      (sched_phase cfg s).1.cycle = -1 ∧
      (sched_phase cfg s).1.blocks_skip
        = toU32 (cTrunc (preamp_off_skip * cfg.sdr_sample_rate /
            ((cfg.block_len : ℚ) - (cfg.history_len : ℚ)))) ∧
      (sched_phase cfg s).2
        = ((if s.cycle ≥ 0 then [Event.cycleStop] else []) ++ set_bias_tee cfg false)
            ++ (if 0 < s.last_block ∧ s.block_idx = s.last_block
                then [Event.cancelSource] else [])) ∧
    (0 < s.last_block → s.block_idx = s.last_block →
      (sched_phase cfg s).1.cancelled = true ∧
      Event.cancelSource ∈ (sched_phase cfg s).2) := by
  constructor
  · intro hp he
    have hpe : 0 < s.preamp_off_block ∧ s.block_idx = s.preamp_off_block := ⟨hp, he⟩
    by_cases hcyc : s.cycle ≥ 0 <;>
      by_cases hlast : 0 < s.last_block ∧ s.block_idx = s.last_block
    · have hple : s.preamp_off_block = s.last_block := by
        obtain ⟨hh1, hh2⟩ := hlast
        omega
      refine ⟨?_, ?_, ?_⟩ <;> simp [sched_phase, hpe, hcyc, hlast, hple]
    · have hnl : ¬ (0 < s.last_block ∧ s.preamp_off_block = s.last_block) := by
        rw [← he]
        exact hlast
      refine ⟨?_, ?_, ?_⟩ <;> simp [sched_phase, hpe, hcyc, hlast, hnl]
    · have hple : s.preamp_off_block = s.last_block := by
        obtain ⟨hh1, hh2⟩ := hlast
        omega
      refine ⟨?_, ?_, ?_⟩ <;> simp [sched_phase, hpe, hcyc, hlast, hple]
      omega
    · have hnl : ¬ (0 < s.last_block ∧ s.preamp_off_block = s.last_block) := by
        rw [← he]
        exact hlast
      refine ⟨?_, ?_, ?_⟩ <;> simp [sched_phase, hpe, hcyc, hlast, hnl]
      omega
  · intro hl he
    have hlast : 0 < s.last_block ∧ s.block_idx = s.last_block := ⟨hl, he⟩
    by_cases hpe : 0 < s.preamp_off_block ∧ s.block_idx = s.preamp_off_block
    · have hple : s.preamp_off_block = s.last_block := by
        obtain ⟨hh1, hh2⟩ := hpe
        omega
      by_cases hcyc : s.cycle ≥ 0 <;>
        constructor <;> simp [sched_phase, hpe, hcyc, hlast, hple]
    · have hnpe2 : ¬ (0 < s.preamp_off_block ∧ s.last_block = s.preamp_off_block) := by
        rw [← he]
        exact hpe
      constructor <;> simp [sched_phase, hpe, hlast, hnpe2]

/-- Claim C7 witness: a state at `block_idx = preamp_off_block = last_block
= 5` with an open cycle: the cycle is closed, the skip counter set, and the
source cancelled. -/
theorem claim_C7_witness :
    ((sched_phase cfgA { initState cfgA with
        preamp_off_block := 5, block_idx := 5, last_block := 5, cycle := 0 }).1.cycle
      = -1 ∧
    (sched_phase cfgA { initState cfgA with
        preamp_off_block := 5, block_idx := 5, last_block := 5, cycle := 0 }).1.blocks_skip
      = toU32 (cTrunc (preamp_off_skip * cfgA.sdr_sample_rate /
          ((cfgA.block_len : ℚ) - (cfgA.history_len : ℚ)))) ∧
    (sched_phase cfgA { initState cfgA with
        preamp_off_block := 5, block_idx := 5, last_block := 5, cycle := 0 }).2
      = [Event.cycleStop, Event.biasTee false, Event.cancelSource]) ∧
    ((sched_phase cfgA { initState cfgA with
        preamp_off_block := 5, block_idx := 5, last_block := 5, cycle := 0 }).1.cancelled
      = true) := by
  have h := claim_C7 cfgA { initState cfgA with
      preamp_off_block := 5, block_idx := 5, last_block := 5, cycle := 0 }
    (by norm_num [initState])
  obtain ⟨h1, h2, h3⟩ := h.1 (by norm_num [initState]) (by norm_num [initState])
  obtain ⟨h4, _⟩ := h.2 (by norm_num [initState]) (by norm_num [initState])
  refine ⟨⟨h1, h2, ?_⟩, h4⟩
  rw [h3]
  norm_num [initState, set_bias_tee, cfgA]

/-- Claim C8: `write_file_header` emits exactly the four magic bytes `CORX`
(67, 79, 82, 88), the version byte `0x01`, and the packed little-endian
`CorxFileHeader` (`slice_start_idx` then `slice_size`, two bytes each, no
padding) — nine bytes in total, from which both fields are recoverable; and
in every pipeline execution the file header is the first writer call and is
never written again. -/
theorem claim_C8 (ss sz : ℤ) (h1 : 0 ≤ ss) (h2 : ss < 65536)
    (h3 : 0 ≤ sz) (h4 : sz < 65536) :
    write_file_header_bytes ss sz
      = [67, 79, 82, 88, 1, ss % 256, ss / 256, sz % 256, sz / 256] ∧
    (write_file_header_bytes ss sz).length = 9 ∧
    ss % 256 + 256 * (ss / 256) = ss ∧
    sz % 256 + 256 * (sz / 256) = sz ∧
    ∀ (cfg : Cfg) (os : List BlockOracle), ∃ rest,
      List.filter isWriterCall (fullTrace cfg os)
        = Event.fileHeader (toU16 slice_start) (toU16 (slice_len cfg)) :: rest ∧
      ∀ a b, Event.fileHeader a b ∈ rest → False := by
  have hm : corx_magic = [67, 79, 82, 88] := by decide
  have hdss : ss / 256 % 256 = ss / 256 := by omega
  have hdsz : sz / 256 % 256 = sz / 256 := by omega
  refine ⟨?_, ?_, by omega, by omega, ?_⟩
  · rw [write_file_header_bytes, hm, u16le_bytes, u16le_bytes, corx_version,
      hdss, hdsz]
    rfl
  · rw [write_file_header_bytes, hm, u16le_bytes, u16le_bytes, corx_version]
    rfl
  · intro cfg os
    have hinit : -1 ≤ (initState cfg).cycle := by simp [initState]
    obtain ⟨r1, r2, r3, r4, r5⟩ := run_spec cfg os (initState cfg) hinit
    refine ⟨List.filter isWriterCall (run cfg (initState cfg) os).2.1, ?_, ?_⟩
    · rw [fullTrace, List.filter_append]
      have hstart : List.filter isWriterCall (start_events cfg)
          = [Event.fileHeader (toU16 slice_start) (toU16 (slice_len cfg))] := by
        rw [start_events, set_bias_tee]
        split <;> simp [isWriterCall]
      rw [hstart]
      rfl
    · intro a b hmem
      exact r4 a b (List.mem_of_mem_filter hmem)

/-- Claim C8 witness: the byte layout at `slice_start_idx = 3` and
`slice_size = 1024`. -/
theorem claim_C8_witness :
    write_file_header_bytes 3 1024
      = [67, 79, 82, 88, 1, 3 % 256, 3 / 256, 1024 % 256, 1024 / 256] ∧
    (write_file_header_bytes 3 1024).length = 9 ∧
    (3 : ℤ) % 256 + 256 * (3 / 256) = 3 ∧
    (1024 : ℤ) % 256 + 256 * (1024 / 256) = 1024 ∧
    ∀ (cfg : Cfg) (os : List BlockOracle), ∃ rest,
      List.filter isWriterCall (fullTrace cfg os)
        = Event.fileHeader (toU16 slice_start) (toU16 (slice_len cfg)) :: rest ∧
      ∀ a b, Event.fileHeader a b ∈ rest → False :=
  claim_C8 3 1024 (by norm_num) (by norm_num) (by norm_num) (by norm_num)

theorem writer_step_void (w : CorxFileWriter) (hw : w.is_void = true) (e : Event) :
    writer_step w e = (w, []) := by
  cases e <;> simp [writer_step, hw]

theorem writer_run_void (w : CorxFileWriter) (hw : w.is_void = true) :
    ∀ evs, writer_run w evs = (w, []) := by
  intro evs
  induction evs with
  | nil => rfl
  | cons e t ih => simp [writer_run, writer_step_void w hw e, ih]

/-- Claim C9: with no sink configured (`is_void`), every writer operation
returns without writing anything and leaves the writer unchanged, and the
pipeline evolves exactly as with any other writer: the detector state, the
exit flag and the call trace of a full run are independent of the writer, and
the void run writes no records at all. -/
theorem claim_C9 (cfg : Cfg) (os : List BlockOracle) (sz : ℤ) (w2 : CorxFileWriter) :
    (∀ e, writer_step { is_void := true, slice_size := sz } e
        = ({ is_void := true, slice_size := sz }, [])) ∧
    (runFull cfg { is_void := true, slice_size := sz } os).1
      = (runFull cfg w2 os).1 ∧
    (runFull cfg { is_void := true, slice_size := sz } os).2.2.2
      = (runFull cfg w2 os).2.2.2 ∧
    (runFull cfg { is_void := true, slice_size := sz } os).2.1
      = { is_void := true, slice_size := sz } ∧
    (runFull cfg { is_void := true, slice_size := sz } os).2.2.1 = [] := by
  refine ⟨fun e => writer_step_void _ rfl e, rfl, rfl, ?_, ?_⟩
  · rw [runFull]
    dsimp only
    rw [writer_run_void _ rfl]
  · rw [runFull]
    dsimp only
    rw [writer_run_void _ rfl]
